import Mathlib

/-!
A shallow embedding of the header verifier and fork-aware header store of
`lib/blockchain.py` (electrum-xsh3).

Modelling conventions, fixed once and used throughout:

* Byte strings are `List Nat` with entries below 256.  Hex strings that the
  source manipulates (`bfh`, `bh2u`, `hash_encode`, `"%064x"`) always denote
  whole bytes there, so they are modelled by the byte sequences they denote;
  every two hex characters of the source correspond to one list entry here.
* Hash values (`prev_block_hash`, `merkle_root`, results of `hash_encode`)
  are 32-entry byte lists in display order, i.e. already byte-reversed
  relative to the raw digest, exactly as the hex strings of the source.
  The string `'0' * 64` of the source is `List.replicate 32 0`.
* Machine integers are `Nat`; heights and other quantities on which the
  source performs possibly-negative arithmetic are `Int`, with Python's
  floor division and floor modulus written `Int.fdiv` / `Int.fmod`.
* Python exceptions are `Except Err` (for pure functions) or an
  `Option Err` component of the result (for state-mutating operations, so
  that a partially mutated state is observable, as it is in Python).
* The hash primitives `scrypt_1024_1_1_80` and `blake2s` are external
  collaborators; they enter as function parameters in `Params`.
* The post-window arithmetic of `Blockchain.get_target` is computed with
  Python IEEE-754 floats in the source (`k = N*(N+1)*T/2` is a float); that
  float computation is abstracted as the uninterpreted `Params.windowedTarget`.
  None of the claims below concerns its numeric value, only which branch of
  `get_target` is taken and the value of the legacy branch.
-/

/-- Big-endian value of a byte list, mirroring `int('0x' + hexstr, 16)`. -/
def beNat (l : List Nat) : Nat := l.foldl (fun a b => a * 256 + b) 0

/-- Little-endian bytes of `n`, `len` bytes wide (low byte first). -/
def toBytesLE : Nat → Nat → List Nat
  | 0, _ => []
  | l + 1, n => n % 256 :: toBytesLE l (n / 256)

/-- Big-endian bytes of `n`, `len` bytes wide; the byte image of
`"%0{2*len}x" % n` for `n < 256 ^ len`. -/
def toBytesBE (l n : Nat) : List Nat := (toBytesLE l n).reverse

/-- `hex_to_int` of `deserialize_header`: `int('0x' + bh2u(s[::-1]), 16)`,
the little-endian value of the byte slice `s`. -/
def leNat (l : List Nat) : Nat := beNat l.reverse

/-- `hash_encode(x) = bh2u(x[::-1])`: raw digest bytes to display order. -/
def hashEncode (l : List Nat) : List Nat := l.reverse

/-- A block header, the dictionary produced by `deserialize_header`.
`prevBlockHash` and `merkleRoot` are display-order byte lists (the hex
strings of the source). -/
structure Header where
  version : Nat
  prevBlockHash : List Nat
  merkleRoot : List Nat
  timestamp : Nat
  bits : Nat
  nonce : Nat
  blockHeight : Int
deriving DecidableEq, Repr

/-- Error kinds; each constructor stands for one exception site of the
source (generic `Exception`, `AssertionError`, `KeyError`, ...). -/
inductive Err where
  | invalidHeader      -- `deserialize_header`: empty or wrong length
  | prevHashMismatch   -- `verify_header`: prev hash mismatch
  | bitsMismatch       -- `verify_header`: bits mismatch
  | insufficientPow    -- `verify_header`: insufficient proof of work
  | badBitsN           -- `bits_to_target`: first part out of [0x03, 0x1e]
  | badBitsBase        -- `bits_to_target`: second part out of [0x8000, 0x7fffff]
  | missingHeader      -- `get_targetv1`: MissingHeader
  | noneType           -- Python TypeError/AttributeError on a None header
  | keyError           -- registry lookup failure (blockchains[...])
  | assertFail         -- failed `assert`
  | indexError         -- list index out of range
  | fileMissing        -- assert_headers_file_available
  | shortRead          -- `read_header`: fewer than 80 bytes read
  | valueError         -- negative seek / negative read count
  | decodeError        -- `bfh`: invalid hex input
  | fuelOut            -- artifact: recursion fuel exhausted (no source analogue)
deriving DecidableEq, Repr

/-- Modelled from the spec: `int_to_hex(x, 4)` of `lib/bitcoin.py` (not in
src/), "little-endian" 4-byte encoding per §4.1 of the spec. -/
def le4 (x : Nat) : List Nat := [x % 256, x / 256 % 256, x / 65536 % 256, x / 16777216 % 256]

/-- `serialize_header(res)` (byte image of the hex string it builds).
`rev_hex` on a display-order hash yields the raw little-endian bytes,
i.e. `List.reverse`. -/
def serializeHeader (res : Header) : List Nat :=
  le4 res.version
    ++ res.prevBlockHash.reverse
    ++ res.merkleRoot.reverse
    ++ le4 res.timestamp
    ++ le4 res.bits
    ++ le4 res.nonce

/-- `deserialize_header(s, height)`. -/
def deserializeHeader (s : List Nat) (height : Int) : Except Err Header :=
  if s.length = 0 then .error .invalidHeader
  else if s.length ≠ 80 then .error .invalidHeader
  else .ok
    { version := leNat ((s.drop 0).take 4)
      prevBlockHash := hashEncode ((s.drop 4).take 32)
      merkleRoot := hashEncode ((s.drop 36).take 32)
      timestamp := leNat ((s.drop 68).take 4)
      bits := leNat ((s.drop 72).take 4)
      nonce := leNat ((s.drop 76).take 4)
      blockHeight := height }

/-- `MAX_TARGET` of `lib/blockchain.py`. -/
def MAX_TARGET : Nat := 0x00000FFFFF000000000000000000000000000000000000000000000000000000

/-- `Blockchain.bits_to_target(bits)`. -/
def bitsToTarget (bits : Nat) : Except Err Nat :=
  let bitsN := (bits >>> 24) &&& 0xff
  if ¬ (bitsN ≥ 0x03 ∧ bitsN ≤ 0x1e) then .error .badBitsN
  else
    let bitsBase := bits &&& 0xffffff
    if ¬ (bitsBase ≥ 0x8000 ∧ bitsBase ≤ 0x7fffff) then .error .badBitsBase
    else .ok (bitsBase <<< (8 * (bitsN - 3)))

/-- The `while c[:2] == '00' and len(c) > 6` loop of `target_to_bits`,
on bytes: drop a leading zero byte while more than 3 bytes remain. -/
def strip00 : List Nat → List Nat
  | [] => []
  | b :: rest => if b = 0 ∧ 3 < rest.length + 1 then strip00 rest else b :: rest

/-- `Blockchain.target_to_bits(target)`.  `("%064x" % target)[2:]` is the
31-byte big-endian image of the target (the dropped two characters are the
top byte, zero for every target below `2 ^ 248`; all targets the source
produces are).  `int('0x' + c[:6], 16)` is the value of the first 3 bytes. -/
def targetToBits (target : Nat) : Nat :=
  let c := (toBytesBE 32 target).drop 1
  let c := strip00 c
  let bitsN := c.length
  let bitsBase := beNat (c.take 3)
  if bitsBase ≥ 0x800000 then ((bitsN + 1) <<< 24) ||| (bitsBase >>> 8)
  else (bitsN <<< 24) ||| bitsBase

deriving instance DecidableEq for Except

/-- External collaborators and compiled-in constants of the verifier:
the two hash primitives (black boxes per the spec), the checkpoint table
`constants.net.CHECKPOINTS` (entries `(hash, target, timestamp)`),
`constants.net.GENESIS`, the `constants.net.TESTNET` flag, and the
abstracted float arithmetic of the windowed retarget (see the header
comment). -/
structure Params where
  scryptFn : List Nat → List Nat
  blakeFn : List Nat → List Nat
  checkpoints : List (List Nat × Nat × Nat)
  genesis : List Nat
  testnet : Bool
  windowedTarget : Nat → List Header → Nat

/-- `hash_header(header)`: `'0' * 64` for a missing header, otherwise the
scrypt digest of the serialized header, display order. -/
def hashHeader (p : Params) : Option Header → List Nat
  | none => List.replicate 32 0
  | some hd => hashEncode (p.scryptFn (serializeHeader hd))

/-- `pow_hash_header(header)`: blake2s for the blake tag, scrypt otherwise. -/
def powHashHeader (p : Params) (hd : Header) : List Nat :=
  if hd.version &&& (15 <<< 11) = (4 <<< 11) then
    hashEncode (p.blakeFn (serializeHeader hd))
  else
    hashEncode (p.scryptFn (serializeHeader hd))

/-- The integer the PoW check compares: `int('0x' + _powhash, 16)`. -/
def powValue (p : Params) (hd : Header) : Nat := beNat (powHashHeader p hd)

/-- `Blockchain.get_algo(header)`: the `switcher` dictionary lookup with
default 0. -/
def getAlgo (hd : Header) : Nat :=
  let tag := hd.version &&& (15 <<< 11)
  if tag = (1 <<< 11) then 0        -- scrypt
  else if tag = (2 <<< 11) then 4   -- groestl
  else if tag = (10 <<< 11) then 2  -- lyra
  else if tag = (3 <<< 11) then 1   -- x17
  else if tag = (4 <<< 11) then 3   -- blake
  else if tag = (11 <<< 11) then 5  -- x16s
  else 0

/-- `Blockchain.GetMaxClockDrift(Height)`. -/
def GetMaxClockDrift (h : Int) : Nat :=
  if h < 660000 ∨ (h < 817500 ∧ h > 800000) then 2 * 60 * 60 else 10 * 60

/-- `Blockchain.verify_header(header, prev_hash, target)`. -/
def verifyHeader (p : Params) (hd : Header) (prevHash : List Nat) (target : Nat) :
    Except Err Unit :=
  let _powhash := powHashHeader p hd
  if prevHash ≠ hd.prevBlockHash then .error .prevHashMismatch
  else if p.testnet then .ok ()
  else if targetToBits target ≠ hd.bits then .error .bitsMismatch
  else
    let algoVersion := hd.version &&& (15 <<< 11)
    if algoVersion = (1 <<< 11) ∨ algoVersion = (4 <<< 11) then
      if beNat _powhash > target then .error .insufficientPow else .ok ()
    else .ok ()

/-- One `Blockchain` object: its `checkpoint`, `parent_id` and cached
`_size` fields.  File contents live in `World.files`, keyed by path. -/
structure ChainRec where
  checkpoint : Nat
  parentId : Option Nat
  size : Nat
deriving DecidableEq, Repr

/-- `Blockchain.path()`: `none` is `blockchain_headers` (main chain, the
name does not depend on the checkpoint), `some (pid, cp)` is
`forks/fork_<pid>_<cp>`. -/
def pathOf (c : ChainRec) : Option (Nat × Nat) :=
  c.parentId.map (fun pid => (pid, c.checkpoint))

/-- The process state: the filesystem under `headers_dir` (one byte list
per existing path) and the `blockchains` registry (checkpoint → chain). -/
structure World where
  files : List (Option (Nat × Nat) × List Nat)
  chains : List (Nat × ChainRec)
deriving DecidableEq, Repr

/-- Association-list lookup (Python dict/file lookup). -/
def afind [DecidableEq α] : List (α × β) → α → Option β
  | [], _ => none
  | (k, v) :: rest, key => if k = key then some v else afind rest key

/-- Association-list update-or-insert (Python dict assignment / file write). -/
def aset [DecidableEq α] : List (α × β) → α → β → List (α × β)
  | [], key, v => [(key, v)]
  | (k, w) :: rest, key, v =>
      if k = key then (k, v) :: rest else (k, w) :: aset rest key v

/-- `Blockchain.height() = checkpoint + size - 1` (as Python int). -/
def heightOfRec (c : ChainRec) : Int := (c.checkpoint : Int) + c.size - 1

/-- `height()` of the chain registered at `key`. -/
def heightOf (w : World) (key : Nat) : Option Int :=
  (afind w.chains key).map heightOfRec

/-- The 80-byte slice at byte offset `delta * 80`, `data[i*80:(i+1)*80]`. -/
def slice80 (data : List Nat) (i : Nat) : List Nat := (data.drop (i * 80)).take 80

/-- Python file truncation at position `offset` (extends with zeros when
the position is past the end, as `seek` + `truncate` do). -/
def pytruncate (file : List Nat) (offset : Nat) : List Nat :=
  file.take offset ++ List.replicate (offset - file.length) 0

/-- Overwrite `data` into `file` at `offset` (zero-fill any gap). -/
def pwrite (file : List Nat) (offset : Nat) (data : List Nat) : List Nat :=
  file.take offset ++ List.replicate (offset - file.length) 0 ++ data
    ++ file.drop (offset + data.length)

/-- `Blockchain.write(data, offset, truncate)`: check the file is present
(`assert_headers_file_available`), truncate at `offset` when `truncate`
holds and `offset ≠ _size * 80`, write, then `update_size`. -/
def writeOp (w : World) (key : Nat) (data : List Nat) (offset : Nat)
    (truncate : Bool) : Option Err × World :=
  match afind w.chains key with
  | none => (some .keyError, w)
  | some c =>
    match afind w.files (pathOf c) with
    | none => (some .fileMissing, w)
    | some file =>
      let f1 := if truncate ∧ offset ≠ c.size * 80 then pytruncate file offset else file
      let f2 := pwrite f1 offset data
      let c2 : ChainRec := { c with size := f2.length / 80 }
      (none, { files := aset w.files (pathOf c) f2, chains := aset w.chains key c2 })

/-- `Blockchain.read_header(height)`, with delegation to the parent chain.
`fuel` bounds the delegation depth (an artifact of the embedding; any fuel
larger than the ancestor-chain length is enough, and the claims below
never exercise `fuelOut`). -/
def readHeader (w : World) : Nat → Nat → Int → Except Err (Option Header)
  | 0, _, _ => .error .fuelOut
  | fuel + 1, key, height =>
    match afind w.chains key with
    | none => .error .keyError
    | some c =>
      if c.parentId = some c.checkpoint then .error .assertFail
      else if height < 0 then .ok none
      else if height < (c.checkpoint : Int) then
        match c.parentId with
        | none => .error .keyError
        | some pid => readHeader w fuel pid height
      else if heightOfRec c < height then .ok none
      else
        match afind w.files (pathOf c) with
        | none => .error .fileMissing
        | some f =>
          let h80 := slice80 f (height - c.checkpoint).toNat
          if h80.length < 80 then .error .shortRead
          else if h80 = List.replicate 80 0 then .ok none
          else (deserializeHeader h80 height).map some

/-- Python list indexing with negative wrap-around, `l[i]`. -/
def pyIndex (l : List α) (i : Int) : Option α :=
  if 0 ≤ i then l.get? i.toNat
  else if 0 ≤ (l.length : Int) + i then l.get? ((l.length : Int) + i).toNat
  else none

/-- `Blockchain.get_hash(height)`. -/
def getHash (p : Params) (w : World) (fuel : Nat) (key : Nat) (height : Int) :
    Except Err (List Nat) :=
  if height = -1 then .ok (List.replicate 32 0)
  else if height = 0 then .ok p.genesis
  else if height < (p.checkpoints.length * 2016 : Int) then
    if (height + 1).fmod 2016 = 0 then
      match pyIndex p.checkpoints (height.fdiv 2016) with
      | some (h, _, _) => .ok h
      | none => .error .indexError
    else .error .assertFail
  else
    (readHeader w fuel key height).map (hashHeader p)

/-- `Blockchain.get_timestamp(height)` (a `None` from `read_header` raises
when `.get('timestamp')` is taken). -/
def getTimestamp (p : Params) (readH : Int → Except Err (Option Header))
    (height : Int) : Except Err Nat :=
  if height < (p.checkpoints.length * 2016 : Int) ∧ (height + 1).fmod 2016 = 0 then
    match pyIndex p.checkpoints (height.fdiv 2016) with
    | some (_, _, ts) => .ok ts
    | none => .error .indexError
  else
    match readH height with
    | .error e => .error e
    | .ok (some hd) => .ok hd.timestamp
    | .ok none => .error .noneType

/-- `Blockchain.get_targetv1(index)`.  The source raises `MissingHeader`
when `first_timestamp` is falsy (zero) or `last` is `None`; both map to
`missingHeader` here, checked in source order. -/
def getTargetv1 (p : Params) (readH : Int → Except Err (Option Header))
    (index : Int) : Except Err Nat :=
  if p.testnet then .ok 0
  else if index = -1 then
    .ok 0x00000FFFF0000000000000000000000000000000000000000000000000000000
  else if index < (p.checkpoints.length : Int) then
    match pyIndex p.checkpoints index with
    | some (_, t, _) => .ok t
    | none => .error .indexError
  else
    match getTimestamp p readH (if index > 0 then index * 2016 - 1 else 0) with
    | .error e => .error e
    | .ok firstTs =>
      match readH (index * 2016 + 2015) with
      | .error e => .error e
      | .ok none => .error .missingHeader
      | .ok (some last) =>
        if firstTs = 0 then .error .missingHeader
        else
          match bitsToTarget last.bits with
          | .error e => .error e
          | .ok target =>
            let nTargetTimespan : Int := 84 * 60 * 60
            let a1 : Int := (last.timestamp : Int) - firstTs
            let a2 : Int := max a1 (nTargetTimespan.fdiv 4)
            let a3 : Int := min a2 (nTargetTimespan * 4)
            .ok (min MAX_TARGET ((target * a3.toNat) / nTargetTimespan.toNat))

/-- Result of `Blockchain.get_target`: the constructor records which branch
produced the value (legacy `get_targetv1`, or the windowed computation). -/
inductive GetTargetResult where
  | legacy (v : Nat)
  | windowed (v : Nat)
deriving DecidableEq, Repr

/-- The numeric target carried by either branch. -/
def GetTargetResult.value : GetTargetResult → Nat
  | .legacy v => v
  | .windowed v => v

/-- The backward walk of `get_target`:
`while c > 100 and len(samealgoblocks) <= N` with `N = 60`; the block at
`c` is decoded from the chunk when `c >= index*2016`, read from the store
otherwise (a `None` there raises inside `get_algo`); a block is appended
when its algorithm matches.  Returns final `c` and the collected list.
The loop variable is a `Nat`: the source value is `-1` only when
`height = 0`, and both the guard `c > 100` and the follow-up test
`c <= 100` decide identically for `-1` and `0`. -/
def dgwWalk (readH : Int → Except Err (Option Header)) (data : List Nat)
    (index : Nat) (algo : Nat) : Nat → List Header → Except Err (Nat × List Header)
  | 0, blocks => .ok (0, blocks)
  | c + 1, blocks =>
    if 100 < c + 1 ∧ blocks.length ≤ 60 then
      match (if index * 2016 ≤ c + 1 then
               deserializeHeader (slice80 data (c + 1 - index * 2016)) (c + 1)
             else
               match readH (c + 1) with
               | .error e => .error e
               | .ok (some b) => .ok b
               | .ok none => .error .noneType) with
      | .error e => .error e
      | .ok block =>
        dgwWalk readH data index algo c
          (blocks ++ if getAlgo block = algo then [block] else [])
    else .ok (c + 1, blocks)

/-- The per-block validity test the windowed loop applies through
`bits_to_target(samealgoblocks[i-1].get('bits'))`. -/
def windowBitsOk (hd : Header) : Bool :=
  match bitsToTarget hd.bits with
  | .ok _ => true
  | .error _ => false

/-- `Blockchain.get_target(data, counter, index)`.  The walk and the
branch decision are exact; the windowed branch first demands valid `bits`
on the 60 youngest collected blocks (the loop raises there otherwise) and
then yields the abstracted float value (see the header comment). -/
def getTarget (p : Params) (readH : Int → Except Err (Option Header))
    (data : List Nat) (counter index : Nat) : Except Err GetTargetResult :=
  let height := index * 2016 + counter
  match deserializeHeader (slice80 data counter) (height : Int) with
  | .error e => .error e
  | .ok cBlock =>
    let algo := getAlgo cBlock
    match dgwWalk readH data index algo (height - 1) [] with
    | .error e => .error e
    | .ok (c, blocks) =>
      if c ≤ 100 then
        match getTargetv1 p readH (height : Int) with
        | .error e => .error e
        | .ok v => .ok (.legacy v)
      else
        if (blocks.take 60).all windowBitsOk then
          .ok (.windowed (p.windowedTarget height blocks))
        else .error .badBitsBase

/-- The body of `Blockchain.verify_chunk`, iterating `i` upward with the
running `prev_hash`; `rem` counts the slices still to check. -/
def verifyChunkAux (p : Params) (readH : Int → Except Err (Option Header))
    (data : List Nat) (index num : Nat) : Nat → List Nat → Except Err Unit
  | 0, _ => .ok ()
  | rem + 1, prevHash =>
    let i := num - (rem + 1)
    match deserializeHeader (slice80 data i) ((index * 2016 + i : Nat) : Int) with
    | .error e => .error e
    | .ok header =>
      match getTarget p readH data i index with
      | .error e => .error e
      | .ok target =>
        match verifyHeader p header prevHash target.value with
        | .error e => .error e
        | .ok () => verifyChunkAux p readH data index num rem (hashHeader p (some header))

/-- `Blockchain.verify_chunk(index, data)`. -/
def verifyChunk (p : Params) (w : World) (fuel : Nat) (key : Nat)
    (index : Nat) (data : List Nat) : Except Err Unit :=
  let num := data.length / 80
  match getHash p w fuel key ((index * 2016 : Int) - 1) with
  | .error e => .error e
  | .ok prevHash =>
    verifyChunkAux p (fun ht => readHeader w fuel key ht) data index num num prevHash

/-- `Blockchain.swap_with_parent()`.  Nothing happens for the main chain
or while `parent_branch_size >= self.size()`.  Otherwise: read both files,
cross-write them at the pre-swap paths, then exchange the `parent_id`,
`checkpoint` and `_size` fields and re-key the registry.  A negative seek
or read count raises (before any write).  The `old_path` rename loop of
the source is omitted: for every chain other than the two being swapped
the fields that determine `path()` are untouched, so `b.old_path !=
b.path()` never holds and the loop provably renames nothing. -/
def swapWithParent (w : World) (key : Nat) : Option Err × World :=
  match afind w.chains key with
  | none => (some .keyError, w)
  | some c =>
  match c.parentId with
  | none => (none, w)
  | some pid =>
    match afind w.chains pid with
    | none => (some .keyError, w)
    | some par =>
      let pbs : Int := heightOfRec par - c.checkpoint + 1
      if (c.size : Int) ≤ pbs then (none, w)
      else
        match afind w.files (pathOf c) with
        | none => (some .fileMissing, w)
        | some myData =>
          match afind w.files (pathOf par) with
          | none => (some .fileMissing, w)
          | some parFile =>
            let off : Int := ((c.checkpoint : Int) - par.checkpoint) * 80
            if off < 0 then (some .valueError, w)
            else if pbs < 0 then (some .valueError, w)
            else
              let parentData := (parFile.drop off.toNat).take (pbs.toNat * 80)
              match writeOp w key parentData 0 true with
              | (some e, w1) => (some e, w1)
              | (none, w1) =>
                match writeOp w1 pid myData off.toNat true with
                | (some e, w2) => (some e, w2)
                | (none, w2) =>
                  match afind w2.chains pid with
                  | none => (some .keyError, w2)
                  | some parW =>
                    let c2 : ChainRec :=
                      { checkpoint := par.checkpoint, parentId := par.parentId,
                        size := parW.size }
                    let par2 : ChainRec :=
                      { checkpoint := c.checkpoint, parentId := some pid,
                        size := pbs.toNat }
                    let ch1 := aset (aset w2.chains key c2) pid par2
                    let ch2 := aset (aset ch1 c2.checkpoint c2) par2.checkpoint par2
                    (none, { files := w2.files, chains := ch2 })

/-- `Blockchain.save_header(header)`. -/
def saveHeader (w : World) (key : Nat) (hd : Header) : Option Err × World :=
  match afind w.chains key with
  | none => (some .keyError, w)
  | some c =>
    let delta : Int := hd.blockHeight - c.checkpoint
    let data := serializeHeader hd
    if delta ≠ (c.size : Int) then (some .assertFail, w)
    else if data.length ≠ 80 then (some .assertFail, w)
    else
      match writeOp w key data (delta.toNat * 80) true with
      | (some e, w1) => (some e, w1)
      | (none, w1) => swapWithParent w1 key

/-- `Blockchain.save_chunk(index, chunk)`. -/
def saveChunk (p : Params) (w : World) (key : Nat) (index : Nat)
    (chunk : List Nat) : Option Err × World :=
  match afind w.chains key with
  | none => (some .keyError, w)
  | some c =>
    let d : Int := ((index * 2016 : Int) - c.checkpoint) * 80
    let chunk2 := if d < 0 then chunk.drop (-d).toNat else chunk
    let d2 : Nat := if d < 0 then 0 else d.toNat
    let trunc : Bool := decide (p.checkpoints.length ≤ index)
    match writeOp w key chunk2 d2 trunc with
    | (some e, w1) => (some e, w1)
    | (none, w1) => swapWithParent w1 key

/-- One hex digit, `bytes.fromhex` style. -/
def hexVal (c : Char) : Option Nat :=
  if '0' ≤ c ∧ c ≤ '9' then some (c.toNat - 48)
  else if 'a' ≤ c ∧ c ≤ 'f' then some (c.toNat - 87)
  else if 'A' ≤ c ∧ c ≤ 'F' then some (c.toNat - 70)
  else none

/-- `bfh(x) = bytes.fromhex(x)` of `lib/util.py` (not in src/), modelled
from its standard meaning: pairs of hex digits to bytes, failing on an odd
digit count or a non-hex character (the source also skips ASCII spaces
between bytes; no claim depends on that). -/
def bfh : List Char → Except Err (List Nat)
  | [] => .ok []
  | [_] => .error .decodeError
  | c1 :: c2 :: rest =>
    match hexVal c1, hexVal c2 with
    | some h, some l => (bfh rest).map (fun bs => (h * 16 + l) :: bs)
    | _, _ => .error .decodeError

/-- `Blockchain.connect_chunk(idx, hexdata)`: decode, verify, save; any
exception yields `false`, together with whatever state the failing call
left behind. -/
def connectChunk (p : Params) (w : World) (fuel : Nat) (key : Nat)
    (idx : Nat) (hexdata : List Char) : Bool × World :=
  match bfh hexdata with
  | .error _ => (false, w)
  | .ok data =>
    match verifyChunk p w fuel key idx data with
    | .error _ => (false, w)
    | .ok () =>
      match saveChunk p w key idx data with
      | (some _, w1) => (false, w1)
      | (none, w1) => (true, w1)

/-! ### Concrete fixtures used by witnesses and counterexamples -/

/-- Fixture parameters: constant hash primitives, a 163-entry checkpoint
table with target 7 everywhere, mainnet. -/
def cexP : Params :=
  { scryptFn := fun _ => List.replicate 32 0, blakeFn := fun _ => List.replicate 32 0,
    checkpoints := List.replicate 163 (List.replicate 32 0, 7, 0),
    genesis := List.replicate 32 1, testnet := false,
    windowedTarget := fun _ _ => 0 }

/-- Fixture store reader: every height is absent. -/
def cexReadH : Int → Except Err (Option Header) := fun _ => .ok none

/-- Fixture chunk: 163 headers, every byte 1. -/
def cexData : List Nat := List.replicate 13040 1

/-- The header every all-ones 80-byte slice decodes to (at height `j`). -/
def cexHdr (j : Int) : Header :=
  { version := 16843009, prevBlockHash := List.replicate 32 1,
    merkleRoot := List.replicate 32 1, timestamp := 16843009,
    bits := 16843009, nonce := 16843009, blockHeight := j }

/-- The 61 ancestors the walk started at height 161 collects: heights
161, 160, ..., 101. -/
def cexBlocks : List Header := (List.range 61).map (fun i => cexHdr ((161 - i : Nat) : Int))


/-- Fixture header for the PoW boundary: scrypt tag, bits `0x03008000`. -/
def cexHdr1 : Header :=
  { version := 2048, prevBlockHash := List.replicate 32 2,
    merkleRoot := List.replicate 32 3, timestamp := 0,
    bits := 0x03008000, nonce := 0, blockHeight := 0 }

/-- Fixture parameters whose scrypt digest always decodes to the value
`0x8000` (equal to the target used in the C1 counterexample). -/
def cexP1 : Params :=
  { scryptFn := fun _ => (toBytesBE 32 0x8000).reverse,
    blakeFn := fun _ => List.replicate 32 0,
    checkpoints := [], genesis := List.replicate 32 1, testnet := false,
    windowedTarget := fun _ _ => 0 }


/-- Fixture parameters with an empty checkpoint table and a nonzero
genesis hash. -/
def cexP9 : Params :=
  { scryptFn := fun _ => List.replicate 32 0, blakeFn := fun _ => List.replicate 32 0,
    checkpoints := [], genesis := List.replicate 32 1, testnet := false,
    windowedTarget := fun _ _ => 0 }

/-- Fixture world: the main chain alone, with an empty headers file. -/
def w9 : World :=
  { files := [(none, [])],
    chains := [(0, { checkpoint := 0, parentId := none, size := 0 })] }


/-- The field ranges under which a header is 80-bytes serializable: 32-bit
integer fields and 64-hex-digit (32-byte) hashes. -/
def HeaderWF (hd : Header) : Prop :=
  hd.version < 2 ^ 32 ∧ hd.timestamp < 2 ^ 32 ∧ hd.bits < 2 ^ 32 ∧ hd.nonce < 2 ^ 32
    ∧ hd.prevBlockHash.length = 32 ∧ hd.merkleRoot.length = 32

instance (hd : Header) : Decidable (HeaderWF hd) := by
  unfold HeaderWF
  infer_instance


/-- Fixture main chain for the swap and save witnesses: 5 stored headers. -/
def wWitMain : ChainRec := { checkpoint := 0, parentId := none, size := 5 }

/-- Fixture fork of 2 headers rooted at height 3. -/
def wWitFork : ChainRec := { checkpoint := 3, parentId := some 0, size := 2 }

/-- Fixture world with the main chain and one fork, both files present. -/
def wWit : World :=
  { files := [(none, List.replicate 400 1), (some (0, 3), List.replicate 160 1)],
    chains := [(0, wWitMain), (3, wWitFork)] }

/-- The all-zero header; its serialization is the absent-header sentinel. -/
def zeroHdr : Header :=
  { version := 0, prevBlockHash := List.replicate 32 0,
    merkleRoot := List.replicate 32 0, timestamp := 0, bits := 0,
    nonce := 0, blockHeight := 0 }


/-! ### Lemmas about the retarget walk -/

/-- Decoding an all-ones 80-byte slice. -/
lemma deserialize_ones (j : Int) :
    deserializeHeader (List.replicate 80 1) j = .ok (cexHdr j) := by
  simp [deserializeHeader, cexHdr, leNat, beNat, hashEncode]

/-- The all-ones header has the default algorithm identifier 0. -/
lemma getAlgo_cexHdr (j : Int) : getAlgo (cexHdr j) = 0 := by
  simp [getAlgo, cexHdr]

/-- Every in-range slice of the fixture chunk is the all-ones header. -/
lemma cexData_slice (j : Nat) (hj : j ≤ 162) : slice80 cexData j = List.replicate 80 1 := by
  simp only [slice80, cexData, List.drop_replicate, List.take_replicate]
  congr 1
  omega

/-- Closed form of the ancestor walk over a chunk (index 0) in which every
visited slice decodes to a same-algorithm header: starting at `c` with
`blocks` collected, the walk gathers `min (c - 100) (61 - |blocks|)`
further headers, at descending heights from `c`, and stops there. -/
lemma dgwWalk_const (readH : Int → Except Err (Option Header)) (data : List Nat)
    (hdrF : Nat → Header) (algo : Nat) :
    ∀ (c : Nat) (blocks : List Header),
    (∀ j, 100 < j → j ≤ c →
        deserializeHeader (slice80 data j) (j : Int) = .ok (hdrF j) ∧ getAlgo (hdrF j) = algo) →
    dgwWalk readH data 0 algo c blocks =
      .ok (c - min (c - 100) (61 - blocks.length),
           blocks ++ (List.range (min (c - 100) (61 - blocks.length))).map
             (fun i => hdrF (c - i)))
  | 0, blocks, _ => by
    simp [dgwWalk]
  | c + 1, blocks, hyp => by
    rw [dgwWalk]
    by_cases h : 100 < c + 1 ∧ blocks.length ≤ 60
    · rw [if_pos h]
      simp only [Nat.zero_mul, Nat.sub_zero]
      rw [if_pos (Nat.zero_le (c + 1))]
      have hj := hyp (c + 1) h.1 (Nat.le_refl _)
      have hj1 := hj.1
      push_cast at hj1
      rw [hj1]
      show dgwWalk readH data 0 algo c
          (blocks ++ if getAlgo (hdrF (c + 1)) = algo then [hdrF (c + 1)] else []) = _
      rw [if_pos hj.2]
      rw [dgwWalk_const readH data hdrF algo c (blocks ++ [hdrF (c + 1)])
        (fun j h1 h2 => hyp j h1 (Nat.le_succ_of_le h2))]
      have hk : min (c + 1 - 100) (61 - blocks.length)
          = min (c - 100) (61 - (blocks ++ [hdrF (c + 1)]).length) + 1 := by
        simp only [List.length_append, List.length_cons, List.length_nil]
        omega
      rw [hk]
      congr 1
      congr 1
      · omega
      · simp only [List.range_succ_eq_map, List.map_cons, List.map_map, Nat.sub_zero]
        have hmap : ((fun i => hdrF (c + 1 - i)) ∘ Nat.succ) = fun i => hdrF (c - i) :=
          funext fun i => by simp [Function.comp, Nat.succ_sub_succ]
        rw [hmap]
        simp
    · rw [if_neg h]
      have h0 : min (c + 1 - 100) (61 - blocks.length) = 0 := by omega
      rw [h0]
      simp

/-- The walk never collects more than 61 headers, and it stops above
height 100 only once it holds at least 61. -/
lemma dgwWalk_len (readH : Int → Except Err (Option Header)) (data : List Nat)
    (index algo : Nat) :
    ∀ (c : Nat) (acc : List Header) (cE : Nat) (bl : List Header),
    dgwWalk readH data index algo c acc = .ok (cE, bl) →
    acc.length ≤ 61 →
    bl.length ≤ 61 ∧ (100 < cE → 61 ≤ bl.length)
  | 0, acc, cE, bl, hres, hacc => by
    rw [dgwWalk] at hres
    obtain ⟨h1, h2⟩ := Prod.mk.injEq .. ▸ Except.ok.inj hres
    subst h1; subst h2
    exact ⟨hacc, by omega⟩
  | c + 1, acc, cE, bl, hres, hacc => by
    rw [dgwWalk] at hres
    by_cases h : 100 < c + 1 ∧ acc.length ≤ 60
    · rw [if_pos h] at hres
      rcases hF : (if index * 2016 ≤ c + 1 then
          deserializeHeader (slice80 data (c + 1 - index * 2016)) ((c : Int) + 1)
        else
          match readH ((c : Int) + 1) with
          | .error e => .error e
          | .ok (some b) => .ok b
          | .ok none => .error Err.noneType) with e | b
      · rw [hF] at hres
        simp at hres
      · rw [hF] at hres
        simp only [] at hres
        refine dgwWalk_len readH data index algo c _ cE bl hres ?_
        by_cases hA : getAlgo b = algo
        · rw [if_pos hA]
          simp only [List.length_append, List.length_cons, List.length_nil]
          omega
        · rw [if_neg hA]
          simp only [List.length_append, List.length_nil]
          omega
    · rw [if_neg h] at hres
      obtain ⟨h1, h2⟩ := Prod.mk.injEq .. ▸ Except.ok.inj hres
      subst h1; subst h2
      exact ⟨hacc, fun hc => by omega⟩

/-- Branch analysis of `get_target`: once the current block decodes to `cB`
and the ancestor walk is known to end at `(cE, blocks)`, the legacy branch
is taken exactly when `cE ≤ 100` and the windowed branch exactly when
`100 < cE` (in which case exactly 61 ancestors were collected). -/
lemma getTarget_cases (p : Params) (readH : Int → Except Err (Option Header))
    (data : List Nat) (counter index : Nat) (cB : Header) (cE : Nat)
    (blocks : List Header)
    (hdes : deserializeHeader (slice80 data counter)
        ((index * 2016 + counter : Nat) : Int) = .ok cB)
    (hwalk : dgwWalk readH data index (getAlgo cB)
        (index * 2016 + counter - 1) [] = .ok (cE, blocks)) :
    (cE ≤ 100 →
      getTarget p readH data counter index
        = (getTargetv1 p readH ((index * 2016 + counter : Nat) : Int)).map
            GetTargetResult.legacy)
    ∧ (100 < cE →
      blocks.length = 61 ∧
      getTarget p readH data counter index
        = (if (blocks.take 60).all windowBitsOk
           then .ok (.windowed (p.windowedTarget (index * 2016 + counter) blocks))
           else .error .badBitsBase)) := by
  have hlen := dgwWalk_len readH data index (getAlgo cB)
    (index * 2016 + counter - 1) [] cE blocks hwalk (by simp)
  rw [getTarget, hdes]
  simp only []
  rw [hwalk]
  simp only []
  constructor
  · intro hc
    rw [if_pos hc]
    rcases hv : getTargetv1 p readH ((index * 2016 + counter : Nat) : Int) with e | v
    · simp [Except.map]
    · simp [Except.map]
  · intro hc
    rw [if_neg (by omega)]
    exact ⟨by omega, rfl⟩

/-- In the fixture scenario the walk from height 161 ends exactly at
`c = 100` holding all 61 ancestors (the 61st collected at height 101). -/
lemma cex_walk : dgwWalk cexReadH cexData 0 0 161 [] = .ok (100, cexBlocks) := by
  rw [dgwWalk_const cexReadH cexData (fun j => cexHdr (j : Int)) 0 161 []]
  · norm_num [cexBlocks]
  · intro j h1 h2
    rw [cexData_slice j (by omega)]
    exact ⟨deserialize_ones _, getAlgo_cexHdr _⟩

set_option maxRecDepth 40000 in
/-- Value of the legacy retarget at height 162 in the fixture. -/
lemma cex_getTargetv1 : getTargetv1 cexP cexReadH 162 = .ok 7 := by decide

/-- In the fixture scenario `get_target` takes the legacy branch. -/
lemma cex_getTarget : getTarget cexP cexReadH cexData 162 0 = .ok (.legacy 7) := by
  have h := (getTarget_cases cexP cexReadH cexData 162 0 (cexHdr 162) 100 cexBlocks
    (by rw [cexData_slice 162 (by omega),
          show ((0 * 2016 + 162 : Nat) : Int) = (162 : Int) by norm_num]
        exact deserialize_ones 162)
    (by rw [getAlgo_cexHdr, show (0 * 2016 + 162 - 1 : Nat) = 161 from rfl]
        exact cex_walk)).1 (by norm_num)
  rw [h, show ((0 * 2016 + 162 : Nat) : Int) = (162 : Int) by norm_num, cex_getTargetv1]
  rfl

/-- C2: `get_target(data, counter, index)` takes the legacy branch exactly
when the backward walk ends at `c ≤ 100`, and then returns the value of
`get_targetv1(height)`; it takes the windowed branch exactly when the walk
ends at `c > 100`, in which case exactly 61 same-algorithm ancestors were
collected.  The boundary case in which the 61st ancestor is collected at
height 101 (so the walk still decrements to `c = 100`) takes the LEGACY
branch, contrary to the claim as stated; see the counterexample. -/
theorem claim_C2 (p : Params) (readH : Int → Except Err (Option Header))
    (data : List Nat) (counter index : Nat) (cB : Header) (cE : Nat)
    (blocks : List Header)
    (hdes : deserializeHeader (slice80 data counter)
        ((index * 2016 + counter : Nat) : Int) = .ok cB)
    (hwalk : dgwWalk readH data index (getAlgo cB)
        (index * 2016 + counter - 1) [] = .ok (cE, blocks)) :
    (cE ≤ 100 →
      getTarget p readH data counter index
        = (getTargetv1 p readH ((index * 2016 + counter : Nat) : Int)).map
            GetTargetResult.legacy)
    ∧ (100 < cE →
      blocks.length = 61 ∧
      getTarget p readH data counter index
        = (if (blocks.take 60).all windowBitsOk
           then .ok (.windowed (p.windowedTarget (index * 2016 + counter) blocks))
           else .error .badBitsBase)) :=
  getTarget_cases p readH data counter index cB cE blocks hdes hwalk

/-- C2 witness: the theorem applied at a concrete input (chunk of two
all-ones headers, position 1 of chunk 0; the walk ends immediately at
`c = 0` with nothing collected, and the legacy branch is taken). -/
theorem claim_C2_witness :
    ((0 : Nat) ≤ 100 →
      getTarget cexP cexReadH (List.replicate 160 1) 1 0
        = (getTargetv1 cexP cexReadH ((0 * 2016 + 1 : Nat) : Int)).map
            GetTargetResult.legacy)
    ∧ ((100 : Nat) < 0 →
      ([] : List Header).length = 61 ∧
      getTarget cexP cexReadH (List.replicate 160 1) 1 0
        = (if (([] : List Header).take 60).all windowBitsOk
           then .ok (.windowed (cexP.windowedTarget (0 * 2016 + 1) []))
           else .error .badBitsBase)) :=
  claim_C2 cexP cexReadH (List.replicate 160 1) 1 0 (cexHdr 1) 0 []
    (by decide) (by decide)

/-- C2 counterexample to the claim as stated: at height 162 over an
all-same-algorithm chunk, the walk collects the full 61 ancestors (all at
heights 101..161, i.e. before it reaches height 100), yet `get_target`
returns the legacy `get_targetv1` value, not the windowed computation. -/
theorem claim_C2_counterexample :
    dgwWalk cexReadH cexData 0 0 161 [] = .ok (100, cexBlocks)
    ∧ cexBlocks.length = 61
    ∧ (cexBlocks.all fun b => 101 ≤ b.blockHeight) = true
    ∧ getTarget cexP cexReadH cexData 162 0 = .ok (.legacy 7)
    ∧ getTargetv1 cexP cexReadH 162 = .ok 7 :=
  ⟨cex_walk, by decide, by decide, cex_getTarget, cex_getTargetv1⟩

/-- C10: `get_algo` maps every version whose tag bits are none of the six
listed tags to identifier 0, the same value the scrypt tag maps to, so the
retarget walk (whose collection test is `getAlgo block = algo`) counts
unknown-tag and scrypt-tag headers as the same algorithm. -/
theorem claim_C10 (hd hs : Header)
    (hu : (hd.version &&& (15 <<< 11)) ∉
        ([1 <<< 11, 2 <<< 11, 10 <<< 11, 3 <<< 11, 4 <<< 11, 11 <<< 11] : List Nat))
    (hsc : hs.version &&& (15 <<< 11) = 1 <<< 11) :
    getAlgo hd = 0 ∧ getAlgo hs = 0 ∧ ∀ algo : Nat, getAlgo hd = algo ↔ getAlgo hs = algo := by
  simp only [List.mem_cons, List.not_mem_nil, or_false, not_or] at hu
  obtain ⟨h1, h2, h3, h4, h5, h6⟩ := hu
  have hda : getAlgo hd = 0 := by
    rw [getAlgo]
    simp only [if_neg h1, if_neg h2, if_neg h3, if_neg h4, if_neg h5, if_neg h6]
  have hsa : getAlgo hs = 0 := by
    rw [getAlgo]
    simp only [hsc]
    decide
  exact ⟨hda, hsa, fun algo => by rw [hda, hsa]⟩

/-- C10 witness: the theorem applied to an unknown-tag header (tag 0) and
a scrypt-tagged one. -/
theorem claim_C10_witness :
    getAlgo (cexHdr 0) = 0 ∧ getAlgo { cexHdr 0 with version := 2048 } = 0 ∧
      ∀ algo : Nat, getAlgo (cexHdr 0) = algo ↔ getAlgo { cexHdr 0 with version := 2048 } = algo :=
  claim_C10 (cexHdr 0) { cexHdr 0 with version := 2048 } (by decide) (by decide)

/-- C1 (amended): on mainnet, when the linkage and bits checks pass and
the algorithm tag is scrypt or blake, `verify_header` fails with the POW
error exactly when the PoW hash value is STRICTLY GREATER than the target,
and accepts exactly when it is less than or equal (the source compares
with `>`, not `>=`; a hash equal to the target is accepted). -/
theorem claim_C1 (p : Params) (hd : Header) (prevHash : List Nat) (target : Nat)
    (hmain : p.testnet = false)
    (hprev : prevHash = hd.prevBlockHash)
    (hbits : targetToBits target = hd.bits)
    (htag : hd.version &&& (15 <<< 11) = 1 <<< 11 ∨ hd.version &&& (15 <<< 11) = 4 <<< 11) :
    (verifyHeader p hd prevHash target = .error .insufficientPow ↔ target < powValue p hd)
    ∧ (verifyHeader p hd prevHash target = .ok () ↔ powValue p hd ≤ target) := by
  rw [verifyHeader]
  rw [if_neg (by simp [hprev])]
  rw [hmain]
  simp only [Bool.false_eq_true, if_false]
  rw [if_neg (by simp [hbits])]
  rw [if_pos htag]
  have hpv : powValue p hd = beNat (powHashHeader p hd) := rfl
  by_cases hpow : beNat (powHashHeader p hd) > target
  · rw [if_pos hpow]
    refine ⟨iff_of_true rfl (by omega), iff_of_false (by simp) (by omega)⟩
  · rw [if_neg hpow]
    refine ⟨iff_of_false (by simp) (by omega), iff_of_true rfl (by omega)⟩

/-- C1 counterexample to the claim as stated: a header whose PoW hash
value equals the target is accepted by `verify_header`, although the claim
requires acceptance only for hashes strictly below the target. -/
theorem claim_C1_counterexample :
    powValue cexP1 cexHdr1 = 0x8000
    ∧ verifyHeader cexP1 cexHdr1 (List.replicate 32 2) 0x8000 = .ok () := by
  constructor
  · decide
  · decide

/-- C1 witness: the amended theorem applied at the concrete boundary
input. -/
theorem claim_C1_witness :
    (verifyHeader cexP1 cexHdr1 (List.replicate 32 2) 0x8000
        = .error .insufficientPow ↔ 0x8000 < powValue cexP1 cexHdr1)
    ∧ (verifyHeader cexP1 cexHdr1 (List.replicate 32 2) 0x8000
        = .ok () ↔ powValue cexP1 cexHdr1 ≤ 0x8000) :=
  claim_C1 cexP1 cexHdr1 (List.replicate 32 2) 0x8000 rfl (by decide) (by decide)
    (Or.inl (by decide))

/-- C9 (amended): for every height `h ≥ 1` at or above
`len(checkpoints) * 2016`, if `read_header(h)` yields no header then
`get_hash(h)` does not fail and returns the all-zero hash, because
`hash_header` of an absent header is the all-zero string.  (At `h = 0`,
reachable only with an empty checkpoint table, `get_hash` returns the
GENESIS constant instead — still no failure; see the counterexample.) -/
theorem claim_C9 (p : Params) (w : World) (fuel key : Nat) (h : Int)
    (h1 : 1 ≤ h)
    (h2 : ((p.checkpoints.length * 2016 : Nat) : Int) ≤ h)
    (hread : readHeader w fuel key h = .ok none) :
    getHash p w fuel key h = .ok (List.replicate 32 0) := by
  rw [getHash]
  rw [if_neg (by omega), if_neg (by omega), if_neg (by omega)]
  rw [hread]
  rfl

/-- C9 witness: the theorem applied to an empty main chain at height 5. -/
theorem claim_C9_witness :
    getHash cexP9 w9 1 0 5 = .ok (List.replicate 32 0) :=
  claim_C9 cexP9 w9 1 0 5 (by decide) (by decide) (by decide)

/-- C9 counterexample to the claim as stated: with an empty checkpoint
table, height 0 satisfies `h ≥ len(checkpoints) * 2016` and
`read_header(0)` yields no header, yet `get_hash(0)` returns the GENESIS
constant, not the all-zero hash string. -/
theorem claim_C9_counterexample :
    readHeader w9 1 0 0 = .ok none
    ∧ ((cexP9.checkpoints.length * 2016 : Nat) : Int) ≤ 0
    ∧ getHash cexP9 w9 1 0 0 = .ok (List.replicate 32 1)
    ∧ getHash cexP9 w9 1 0 0 ≠ .ok (List.replicate 32 0) := by
  refine ⟨by decide, by decide, by decide, by decide⟩

/-- C6 (amended): `bits_to_target` fails exactly when the exponent is
outside [0x03, 0x1e] or the mantissa is outside [0x8000, 0x7fffff], and
otherwise returns `base <<< (8 * (n - 3))`; every encoding with exponent
above 0x1e is rejected.  The encoding of `MAX_TARGET` itself, however, is
`0x1e0fffff`, whose exponent is exactly 0x1e, and it is ACCEPTED; see the
counterexample. -/
theorem claim_C6 (bits : Nat) (_hb : bits < 2 ^ 32) :
    ((∃ e, bitsToTarget bits = .error e) ↔
      ((bits >>> 24) &&& 0xff < 0x03 ∨ 0x1e < (bits >>> 24) &&& 0xff
        ∨ bits &&& 0xffffff < 0x8000 ∨ 0x7fffff < bits &&& 0xffffff))
    ∧ ((0x03 ≤ (bits >>> 24) &&& 0xff ∧ (bits >>> 24) &&& 0xff ≤ 0x1e
        ∧ 0x8000 ≤ bits &&& 0xffffff ∧ bits &&& 0xffffff ≤ 0x7fffff) →
      bitsToTarget bits = .ok ((bits &&& 0xffffff) <<< (8 * (((bits >>> 24) &&& 0xff) - 3))))
    ∧ (0x1e < (bits >>> 24) &&& 0xff → ∃ e, bitsToTarget bits = .error e) := by
  rw [bitsToTarget]
  by_cases hn : (bits >>> 24) &&& 0xff ≥ 0x03 ∧ (bits >>> 24) &&& 0xff ≤ 0x1e
  · rw [if_neg (by omega)]
    by_cases hbase : bits &&& 0xffffff ≥ 0x8000 ∧ bits &&& 0xffffff ≤ 0x7fffff
    · rw [if_neg (by omega)]
      refine ⟨?_, fun _ => rfl, fun hgt => absurd hgt (by omega)⟩
      constructor
      · rintro ⟨e, he⟩
        cases he
      · intro hcond
        omega
    · rw [if_pos hbase]
      refine ⟨?_, fun hcond => absurd hcond (by omega), fun hgt => absurd hgt (by omega)⟩
      exact iff_of_true ⟨.badBitsBase, rfl⟩ (by omega)
  · rw [if_pos hn]
    refine ⟨iff_of_true ⟨.badBitsN, rfl⟩ (by omega),
      fun hcond => absurd hcond (by omega), fun _ => ⟨.badBitsN, rfl⟩⟩

/-- C6 witness: the theorem applied at the valid encoding `0x1d00ffff`. -/
theorem claim_C6_witness :
    ((∃ e, bitsToTarget 0x1d00ffff = .error e) ↔
      ((0x1d00ffff >>> 24) &&& 0xff < 0x03 ∨ 0x1e < (0x1d00ffff >>> 24) &&& 0xff
        ∨ 0x1d00ffff &&& 0xffffff < 0x8000 ∨ 0x7fffff < 0x1d00ffff &&& 0xffffff))
    ∧ ((0x03 ≤ (0x1d00ffff >>> 24) &&& 0xff ∧ (0x1d00ffff >>> 24) &&& 0xff ≤ 0x1e
        ∧ 0x8000 ≤ 0x1d00ffff &&& 0xffffff ∧ 0x1d00ffff &&& 0xffffff ≤ 0x7fffff) →
      bitsToTarget 0x1d00ffff
        = .ok ((0x1d00ffff &&& 0xffffff) <<< (8 * (((0x1d00ffff >>> 24) &&& 0xff) - 3))))
    ∧ (0x1e < (0x1d00ffff >>> 24) &&& 0xff → ∃ e, bitsToTarget 0x1d00ffff = .error e) :=
  claim_C6 0x1d00ffff (by decide)

/-- C6 counterexample to the MAX_TARGET part of the claim as stated:
`target_to_bits(MAX_TARGET) = 0x1e0fffff`, its exponent is exactly 0x1e
(not above), and `bits_to_target` accepts it, returning MAX_TARGET. -/
theorem claim_C6_counterexample :
    targetToBits MAX_TARGET = 0x1e0fffff
    ∧ (0x1e0fffff >>> 24) &&& 0xff = 0x1e
    ∧ bitsToTarget 0x1e0fffff = .ok MAX_TARGET :=
  ⟨by decide, by decide, by decide⟩

/-- Decoding a 4-byte little-endian encoding gives back the value. -/
lemma leNat_le4 (x : Nat) (h : x < 2 ^ 32) : leNat (le4 x) = x := by
  simp only [le4, leNat, beNat, List.reverse_cons, List.reverse_nil, List.nil_append,
    List.cons_append, List.foldl_cons, List.foldl_nil]
  omega

/-- Round trip of the header codec. -/
lemma serialize_deserialize (hd : Header) (height : Int) (h : HeaderWF hd) :
    deserializeHeader (serializeHeader hd) height = .ok { hd with blockHeight := height } := by
  obtain ⟨hv, ht, hb, hn, hp, hm⟩ := h
  have hs : serializeHeader hd
      = le4 hd.version ++ (hd.prevBlockHash.reverse ++ (hd.merkleRoot.reverse
        ++ (le4 hd.timestamp ++ (le4 hd.bits ++ le4 hd.nonce)))) := by
    simp [serializeHeader, List.append_assoc]
  have hlen : (serializeHeader hd).length = 80 := by
    simp [serializeHeader, le4, hp, hm]
  have e0 : (serializeHeader hd).take 4 = le4 hd.version := by
    rw [hs, List.take_left' (show (le4 hd.version).length = 4 from rfl)]
  have d4 : (serializeHeader hd).drop 4
      = hd.prevBlockHash.reverse ++ (hd.merkleRoot.reverse
        ++ (le4 hd.timestamp ++ (le4 hd.bits ++ le4 hd.nonce))) := by
    rw [hs, List.drop_left' (show (le4 hd.version).length = 4 from rfl)]
  have e1 : ((serializeHeader hd).drop 4).take 32 = hd.prevBlockHash.reverse := by
    rw [d4, List.take_left' (show hd.prevBlockHash.reverse.length = 32 by simp [hp])]
  have d36 : (serializeHeader hd).drop 36
      = hd.merkleRoot.reverse ++ (le4 hd.timestamp ++ (le4 hd.bits ++ le4 hd.nonce)) := by
    rw [show (36 : Nat) = 4 + 32 from rfl, ← List.drop_drop, d4,
      List.drop_left' (show hd.prevBlockHash.reverse.length = 32 by simp [hp])]
  have e2 : ((serializeHeader hd).drop 36).take 32 = hd.merkleRoot.reverse := by
    rw [d36, List.take_left' (show hd.merkleRoot.reverse.length = 32 by simp [hm])]
  have d68 : (serializeHeader hd).drop 68
      = le4 hd.timestamp ++ (le4 hd.bits ++ le4 hd.nonce) := by
    rw [show (68 : Nat) = 36 + 32 from rfl, ← List.drop_drop, d36,
      List.drop_left' (show hd.merkleRoot.reverse.length = 32 by simp [hm])]
  have e3 : ((serializeHeader hd).drop 68).take 4 = le4 hd.timestamp := by
    rw [d68, List.take_left' (show (le4 hd.timestamp).length = 4 from rfl)]
  have d72 : (serializeHeader hd).drop 72 = le4 hd.bits ++ le4 hd.nonce := by
    rw [show (72 : Nat) = 68 + 4 from rfl, ← List.drop_drop, d68,
      List.drop_left' (show (le4 hd.timestamp).length = 4 from rfl)]
  have e4 : ((serializeHeader hd).drop 72).take 4 = le4 hd.bits := by
    rw [d72, List.take_left' (show (le4 hd.bits).length = 4 from rfl)]
  have d76 : (serializeHeader hd).drop 76 = le4 hd.nonce := by
    rw [show (76 : Nat) = 72 + 4 from rfl, ← List.drop_drop, d72,
      List.drop_left' (show (le4 hd.bits).length = 4 from rfl)]
  have e5 : ((serializeHeader hd).drop 76).take 4 = le4 hd.nonce := by
    rw [d76]
    exact List.take_of_length_le (Nat.le_of_eq rfl)
  rw [deserializeHeader, hlen]
  norm_num
  rw [e0, e1, e2, e3, e4, e5]
  exact ⟨leNat_le4 _ hv, by simp [hashEncode], by simp [hashEncode],
    leNat_le4 _ ht, leNat_le4 _ hb, leNat_le4 _ hn⟩

/-- C5: for every header with 32-bit integer fields and 32-byte hashes,
deserializing its 80 serialized bytes at any height returns the same
header with `block_height` set to that height; and `deserialize_header`
fails for every input whose length is not 80. -/
theorem claim_C5 (hd : Header) (height : Int) (hwf : HeaderWF hd) :
    deserializeHeader (serializeHeader hd) height = .ok { hd with blockHeight := height }
    ∧ (∀ (s : List Nat) (hgt : Int), s.length ≠ 80 → ∃ e, deserializeHeader s hgt = .error e) := by
  refine ⟨serialize_deserialize hd height hwf, fun s hgt hlen => ?_⟩
  rw [deserializeHeader]
  by_cases h0 : s.length = 0
  · rw [if_pos h0]
    exact ⟨.invalidHeader, rfl⟩
  · rw [if_neg h0, if_pos hlen]
    exact ⟨.invalidHeader, rfl⟩

/-- C5 witness: the theorem applied to a concrete header, with the
round-trip evaluated. -/
theorem claim_C5_witness :
    (deserializeHeader (serializeHeader cexHdr1) 9 = .ok { cexHdr1 with blockHeight := 9 }
    ∧ (∀ (s : List Nat) (hgt : Int), s.length ≠ 80 → ∃ e, deserializeHeader s hgt = .error e))
    ∧ deserializeHeader (serializeHeader cexHdr1) 9
        = .ok { version := 2048, prevBlockHash := List.replicate 32 2,
                merkleRoot := List.replicate 32 3, timestamp := 0,
                bits := 0x03008000, nonce := 0, blockHeight := 9 } :=
  ⟨claim_C5 cexHdr1 9 (by decide), by decide⟩

/-- Bitwise or of disjoint parts is addition: `a <<< k ||| c = a * 2^k + c`
for `c < 2^k`. -/
lemma shiftLeft_lor_add : ∀ (k a c : Nat), c < 2 ^ k → (a <<< k) ||| c = a * 2 ^ k + c
  | 0, a, c, h => by
    have hc : c = 0 := by simpa using h
    subst hc
    simp
  | k + 1, a, c, h => by
    have h2 : c >>> 1 < 2 ^ k := by
      rw [Nat.shiftRight_one]
      omega
    have hstep : (a <<< (k + 1)) ||| c
        = Nat.bit false (a <<< k) ||| Nat.bit (decide (c % 2 = 1)) (c >>> 1) := by
      rw [Nat.bit_decide_mod_two_eq_one_shiftRight_one]
      congr 1
      rw [Nat.bit_val, Nat.shiftLeft_succ]
      simp
    rw [hstep, Nat.lor_bit, shiftLeft_lor_add k a (c >>> 1) h2, Nat.bit_val,
      Nat.shiftRight_one, pow_succ]
    have hsplit : (false || decide (c % 2 = 1)).toNat = c % 2 := by
      rcases Nat.mod_two_eq_zero_or_one c with h0 | h1
      · simp [h0]
      · simp [h1]
    rw [hsplit]
    have hmul : 2 * (a * 2 ^ k + c / 2) = a * (2 ^ k * 2) + 2 * (c / 2) := by ring
    rw [hmul]
    omega

/-- `toBytesLE` always emits exactly `l` bytes. -/
lemma toBytesLE_length : ∀ (l n : Nat), (toBytesLE l n).length = l
  | 0, _ => rfl
  | l + 1, n => by simp [toBytesLE, toBytesLE_length l]

/-- The byte image of zero. -/
lemma toBytesLE_zero : ∀ (l : Nat), toBytesLE l 0 = List.replicate l 0
  | 0 => rfl
  | l + 1 => by simp [toBytesLE, toBytesLE_zero l, List.replicate_succ]

/-- Multiplying by `256 ^ e` shifts the byte image by `e` zero bytes. -/
lemma toBytesLE_mul_pow : ∀ (e l base : Nat), e ≤ l →
    toBytesLE l (base * 256 ^ e) = List.replicate e 0 ++ toBytesLE (l - e) base
  | 0, l, base, _ => by simp
  | e + 1, l + 1, base, he => by
    rw [toBytesLE]
    have hm : base * 256 ^ (e + 1) % 256 = 0 := by
      rw [pow_succ, ← Nat.mul_assoc]
      exact Nat.mul_mod_left _ _
    have hd : base * 256 ^ (e + 1) / 256 = base * 256 ^ e := by
      rw [pow_succ, ← Nat.mul_assoc]
      exact Nat.mul_div_cancel _ (by norm_num)
    rw [hm, hd, toBytesLE_mul_pow e l base (by omega), List.replicate_succ]
    simp
  | e + 1, 0, base, he => by omega

/-- A value below `256 ^ k` occupies only the low `k` bytes. -/
lemma toBytesLE_small : ∀ (k l base : Nat), k ≤ l → base < 256 ^ k →
    toBytesLE l base = toBytesLE k base ++ List.replicate (l - k) 0
  | 0, l, base, _, hb => by
    have : base = 0 := by simpa using hb
    subst this
    simp [toBytesLE_zero, toBytesLE]
  | k + 1, l + 1, base, hk, hb => by
    rw [toBytesLE, toBytesLE]
    have : base / 256 < 256 ^ k := by
      rw [Nat.div_lt_iff_lt_mul (by norm_num : (0:Nat) < 256), ← pow_succ]
      exact hb
    rw [toBytesLE_small k l (base / 256) (by omega) this]
    simp
  | k + 1, 0, base, hk, hb => by omega

/-- The `00`-stripping loop removes all leading zero bytes when at least
3 bytes follow the first nonzero one. -/
lemma strip00_rep_big : ∀ (z : Nat) (r0 : Nat) (rtail : List Nat), r0 ≠ 0 →
    2 ≤ rtail.length →
    strip00 (List.replicate z 0 ++ r0 :: rtail) = r0 :: rtail
  | 0, r0, rtail, hr, hlen => by
    simp only [List.replicate_zero, List.nil_append, strip00]
    rw [if_neg (by simp [hr])]
  | z + 1, r0, rtail, hr, hlen => by
    rw [List.replicate_succ, List.cons_append, strip00]
    rw [if_pos (by simp; omega)]
    exact strip00_rep_big z r0 rtail hr hlen

/-- With only two significant bytes left, stripping stops at length 3,
leaving one zero byte. -/
lemma strip00_rep_two : ∀ (z : Nat) (hi lo : Nat), 1 ≤ z →
    strip00 (List.replicate z 0 ++ [hi, lo]) = [0, hi, lo]
  | 1, hi, lo, _ => by
    simp only [List.replicate_succ, List.replicate_zero, List.nil_append,
      List.cons_append, strip00]
    rw [if_neg (by simp)]
    simp
  | z + 2, hi, lo, _ => by
    rw [List.replicate_succ, List.cons_append, strip00]
    rw [if_pos (by simp)]
    exact strip00_rep_two (z + 1) hi lo (by omega)

/-- Closed form of `target_to_bits` on the image of `bits_to_target`:
for a valid mantissa and byte exponent `e ≤ 27`,
`target_to_bits (base * 256 ^ e) = (e + 3) <<< 24 ||| base`. -/
lemma targetToBits_base_exp (base e : Nat) (hb1 : 0x8000 ≤ base) (hb2 : base ≤ 0x7fffff)
    (he : e ≤ 27) :
    targetToBits (base * 256 ^ e) = ((e + 3) <<< 24) ||| base := by
  have hbase24 : base < 256 ^ 3 := by omega
  have hLE : toBytesLE 32 (base * 256 ^ e)
      = List.replicate e 0 ++ (toBytesLE 3 base ++ List.replicate (29 - e) 0) := by
    rw [toBytesLE_mul_pow e 32 base (by omega),
      toBytesLE_small 3 (32 - e) base (by omega) hbase24]
    congr 3
    omega
  have h3 : toBytesLE 3 base
      = [base % 256, base / 256 % 256, base / 256 / 256 % 256] := rfl
  have hBE : (toBytesBE 32 (base * 256 ^ e)).drop 1
      = List.replicate (28 - e) 0
        ++ base / 256 / 256 % 256 :: base / 256 % 256 :: base % 256
          :: List.replicate e 0 := by
    simp only [toBytesBE, hLE, h3, List.reverse_append, List.reverse_replicate,
      List.reverse_cons, List.reverse_nil, List.nil_append, List.append_assoc,
      List.cons_append]
    rw [show (29 - e : Nat) = (28 - e) + 1 by omega, List.replicate_succ,
      List.cons_append]
    simp [List.append_assoc]
  rw [targetToBits]
  simp only [hBE]
  by_cases hbig : 0x10000 ≤ base
  · have hb2ne : base / 256 / 256 % 256 ≠ 0 := by omega
    rw [strip00_rep_big (28 - e) _ _ hb2ne (by simp)]
    have htake : (base / 256 / 256 % 256 :: base / 256 % 256 :: base % 256
        :: List.replicate e 0).take 3
        = [base / 256 / 256 % 256, base / 256 % 256, base % 256] := by
      simp [List.take_replicate]
    have hlen : (base / 256 / 256 % 256 :: base / 256 % 256 :: base % 256
        :: List.replicate e 0).length = 3 + e := by
      simp
      omega
    rw [htake, hlen]
    have hbeNat : beNat [base / 256 / 256 % 256, base / 256 % 256, base % 256] = base := by
      simp only [beNat, List.foldl_cons, List.foldl_nil]
      omega
    rw [hbeNat, if_neg (by omega), Nat.add_comm 3 e]
  · have hb20 : base / 256 / 256 % 256 = 0 := by omega
    have hb1ne : base / 256 % 256 ≠ 0 := by omega
    rw [hb20]
    have hfold : List.replicate (28 - e) 0
        ++ (0 : Nat) :: base / 256 % 256 :: base % 256 :: List.replicate e 0
        = List.replicate (29 - e) 0
          ++ base / 256 % 256 :: base % 256 :: List.replicate e 0 := by
      rw [show (29 - e : Nat) = (28 - e) + 1 by omega, List.replicate_succ']
      simp [List.append_assoc]
    rw [hfold]
    by_cases he1 : 1 ≤ e
    · rw [strip00_rep_big (29 - e) _ _ hb1ne (by simp; omega)]
      have hlen : (base / 256 % 256 :: base % 256 :: List.replicate e 0).length
          = 2 + e := by
        simp
        omega
      have htake : (base / 256 % 256 :: base % 256 :: List.replicate e 0).take 3
          = [base / 256 % 256, base % 256, 0] := by
        rw [List.take_cons, List.take_cons, List.take_replicate]
        · rw [show min 1 e = 1 by omega]
          rfl
        · norm_num
        · norm_num
      rw [hlen, htake]
      have hbeNat : beNat [base / 256 % 256, base % 256, 0] = base * 256 := by
        simp only [beNat, List.foldl_cons, List.foldl_nil]
        omega
      rw [hbeNat, if_pos (by omega)]
      have hshift : (base * 256) >>> 8 = base := by
        rw [Nat.shiftRight_eq_div_pow]
        norm_num
      rw [hshift, show ((2 + e) + 1 : Nat) = e + 3 by omega]
    · have he0 : e = 0 := by omega
      subst he0
      simp only [List.replicate_zero, Nat.sub_zero, pow_zero, Nat.mul_one]
      rw [strip00_rep_two 29 _ _ (by omega)]
      have hbeNat : beNat [0, base / 256 % 256, base % 256] = base := by
        simp only [beNat, List.foldl_cons, List.foldl_nil]
        omega
      rw [show ([0, base / 256 % 256, base % 256] : List Nat).take 3
          = [0, base / 256 % 256, base % 256] from rfl]
      rw [hbeNat, if_neg (by omega), show ((0 + 3 : Nat)) = 3 from by omega]
      have hl3 : ([0, base / 256 % 256, base % 256] : List Nat).length = 3 := rfl
      rw [hl3]

/-- C4: for every 32-bit bits value accepted by `bits_to_target`
(exponent in [0x03, 0x1e], mantissa in [0x8000, 0x7fffff]), the round
trip `target_to_bits (bits_to_target bits)` returns `bits` itself. -/
theorem claim_C4 (bits : Nat) (hbits : bits < 2 ^ 32)
    (hn1 : 0x03 ≤ (bits >>> 24) &&& 0xff) (hn2 : (bits >>> 24) &&& 0xff ≤ 0x1e)
    (hb1 : 0x8000 ≤ bits &&& 0xffffff) (hb2 : bits &&& 0xffffff ≤ 0x7fffff) :
    bitsToTarget bits
        = .ok ((bits &&& 0xffffff) <<< (8 * (((bits >>> 24) &&& 0xff) - 3)))
    ∧ targetToBits ((bits &&& 0xffffff) <<< (8 * (((bits >>> 24) &&& 0xff) - 3)))
        = bits := by
  have h24 : (0xffffff : Nat) = 2 ^ 24 - 1 := by norm_num
  have h8 : (0xff : Nat) = 2 ^ 8 - 1 := by norm_num
  have hbase : bits &&& 0xffffff = bits % 2 ^ 24 := by
    rw [h24, Nat.and_pow_two_sub_one_eq_mod]
  have hn : (bits >>> 24) &&& 0xff = bits / 2 ^ 24 := by
    rw [h8, Nat.and_pow_two_sub_one_eq_mod, Nat.shiftRight_eq_div_pow]
    have hlt : bits / 2 ^ 24 < 2 ^ 8 := by omega
    exact Nat.mod_eq_of_lt hlt
  constructor
  · rw [bitsToTarget]
    rw [if_neg (by omega), if_neg (by omega)]
  · have hshift : (bits &&& 0xffffff) <<< (8 * (((bits >>> 24) &&& 0xff) - 3))
        = (bits &&& 0xffffff) * 256 ^ (((bits >>> 24) &&& 0xff) - 3) := by
      rw [Nat.shiftLeft_eq, pow_mul]
      norm_num
    rw [hshift, targetToBits_base_exp _ _ hb1 hb2 (by omega)]
    rw [show (((bits >>> 24) &&& 0xff) - 3) + 3 = (bits >>> 24) &&& 0xff by omega]
    rw [shiftLeft_lor_add 24 _ _ (by omega)]
    rw [hn, hbase]
    omega

/-- C4 witness: the round trip evaluated at `0x1d00ffff`. -/
theorem claim_C4_witness :
    bitsToTarget 0x1d00ffff
        = .ok ((0x1d00ffff &&& 0xffffff) <<< (8 * (((0x1d00ffff >>> 24) &&& 0xff) - 3)))
    ∧ targetToBits ((0x1d00ffff &&& 0xffffff) <<< (8 * (((0x1d00ffff >>> 24) &&& 0xff) - 3)))
        = 0x1d00ffff :=
  claim_C4 0x1d00ffff (by decide) (by decide) (by decide) (by decide) (by decide)

/-- Lookup after update-or-insert. -/
lemma afind_aset [DecidableEq α] : ∀ (l : List (α × β)) (k k2 : α) (v : β),
    afind (aset l k v) k2 = if k = k2 then some v else afind l k2
  | [], k, k2, v => by
    simp [aset, afind]
  | (k0, v0) :: rest, k, k2, v => by
    rw [aset]
    by_cases h0 : k0 = k
    · subst h0
      rw [if_pos rfl, afind]
      by_cases h2 : k0 = k2
      · subst h2
        simp [afind]
      · rw [if_neg h2, if_neg h2, afind, if_neg h2]
    · rw [if_neg h0, afind, afind]
      by_cases h2 : k0 = k2
      · subst h2
        rw [if_pos rfl, if_pos rfl]
        rw [if_neg (fun hk => h0 hk.symm)]
      · rw [if_neg h2, if_neg h2, afind_aset rest k k2 v]

/-- Lookup of the freshly assigned key. -/
lemma afind_aset_self [DecidableEq α] (l : List (α × β)) (k : α) (v : β) :
    afind (aset l k v) k = some v := by
  rw [afind_aset, if_pos rfl]

/-- `swap_with_parent` does nothing for a main chain and when the parent
branch is at least as long as the chain. -/
lemma swap_noop (w : World) (key : Nat) (c : ChainRec)
    (hc : afind w.chains key = some c)
    (hcond : c.parentId = none
      ∨ ∃ pid par, c.parentId = some pid ∧ afind w.chains pid = some par
          ∧ (c.size : Int) ≤ heightOfRec par - c.checkpoint + 1) :
    swapWithParent w key = (none, w) := by
  rw [swapWithParent, hc]
  simp only []
  rcases hcond with hnone | ⟨pid, par, hpid, hpar, hle⟩
  · rw [hnone]
  · rw [hpid]
    simp only []
    rw [hpar]
    simp only []
    rw [if_pos hle]

/-- C7: `swap_with_parent()` changes nothing at all (files, fields and
registry, i.e. the whole world) when the chain has no parent or when
`parent_branch_size = parent.height - checkpoint + 1` is at least the
chain size. -/
theorem claim_C7 (w : World) (key : Nat) (c : ChainRec)
    (hc : afind w.chains key = some c)
    (hcond : c.parentId = none
      ∨ ∃ pid par, c.parentId = some pid ∧ afind w.chains pid = some par
          ∧ (c.size : Int) ≤ heightOfRec par - c.checkpoint + 1) :
    swapWithParent w key = (none, w) :=
  swap_noop w key c hc hcond

/-- C7 witness: the theorem applied to a fork whose parent branch covers
it, and to the main chain. -/
theorem claim_C7_witness :
    swapWithParent wWit 3 = (none, wWit) ∧ swapWithParent wWit 0 = (none, wWit) :=
  ⟨claim_C7 wWit 3 wWitFork (by decide)
      (Or.inr ⟨0, wWitMain, by decide, by decide, by decide⟩),
    claim_C7 wWit 0 wWitMain (by decide) (Or.inl (by decide))⟩

/-- A well-formed header serializes to exactly 80 bytes. -/
lemma serializeHeader_length (hd : Header) (h : HeaderWF hd) :
    (serializeHeader hd).length = 80 := by
  obtain ⟨_, _, _, _, hp, hm⟩ := h
  simp [serializeHeader, le4, hp, hm]

/-- Writing at end of file appends. -/
lemma pwrite_append (f data : List Nat) (off : Nat) (h : f.length = off) :
    pwrite f off data = f ++ data := by
  subst h
  have h1 : f.take f.length = f := List.take_of_length_le (Nat.le_refl _)
  have h2 : f.drop (f.length + data.length) = [] := List.drop_eq_nil_of_le (by omega)
  rw [pwrite, h1, Nat.sub_self, h2]
  simp

/-- The 80-byte slice copied at the end of an 80-aligned file. -/
lemma slice80_append (f data : List Nat) (n : Nat) (hf : f.length = n * 80)
    (hdl : data.length = 80) :
    slice80 (f ++ data) n = data := by
  rw [slice80, List.drop_left' hf]
  exact List.take_of_length_le (by omega)

/-- Rebuilding a header with its own height is the identity. -/
lemma header_eta (hd : Header) : { hd with blockHeight := hd.blockHeight } = hd := rfl

/-- C8 (amended): when `delta = header.height - checkpoint = size`, the
file is 80-aligned, no parent swap is triggered, and the serialized
header is NOT the all-zero absent-header sentinel, `save_header` succeeds,
`read_header(h.height)` returns the same header, and `height()` grows by
exactly one.  For the all-zero header the height still grows but
`read_header` returns none; see the counterexample. -/
theorem claim_C8 (w : World) (fuel key : Nat) (c : ChainRec) (hd : Header) (f : List Nat)
    (hc : afind w.chains key = some c)
    (hfile : afind w.files (pathOf c) = some f)
    (hflen : f.length = c.size * 80)
    (hwf : HeaderWF hd)
    (hnz : serializeHeader hd ≠ List.replicate 80 0)
    (hheight : hd.blockHeight = (c.checkpoint : Int) + c.size)
    (hpar : c.parentId ≠ some c.checkpoint)
    (hnoswap : c.parentId = none
      ∨ ∃ pid par, c.parentId = some pid ∧ pid ≠ key
          ∧ afind w.chains pid = some par
          ∧ ((c.size : Int) + 1) ≤ heightOfRec par - c.checkpoint + 1) :
    (saveHeader w key hd).1 = none
    ∧ readHeader (saveHeader w key hd).2 (fuel + 1) key hd.blockHeight = .ok (some hd)
    ∧ heightOf (saveHeader w key hd).2 key = some (heightOfRec c + 1) := by
  have hdl : (serializeHeader hd).length = 80 := serializeHeader_length hd hwf
  have hdelta : (hd.blockHeight - (c.checkpoint : Int)).toNat = c.size := by omega
  have hdne : ¬(hd.blockHeight - (c.checkpoint : Int) ≠ (c.size : Int)) := by omega
  have hl2 : ¬((serializeHeader hd).length ≠ 80) := by omega
  have hsave : saveHeader w key hd
      = swapWithParent
          { files := aset w.files (pathOf c) (f ++ serializeHeader hd),
            chains := aset w.chains key { c with size := c.size + 1 } } key := by
    simp only [saveHeader, hc, writeOp, hfile, if_neg hdne, if_neg hl2, hdelta]
    rw [if_neg (show ¬(True ∧ c.size * 80 ≠ c.size * 80) by simp)]
    rw [pwrite_append f (serializeHeader hd) (c.size * 80) hflen]
    have hsize2 : (f ++ serializeHeader hd).length / 80 = c.size + 1 := by
      simp only [List.length_append, hflen, hdl]
      omega
    rw [hsize2]
  set c2 : ChainRec := { c with size := c.size + 1 } with hc2
  set w1 : World :=
    { files := aset w.files (pathOf c) (f ++ serializeHeader hd),
      chains := aset w.chains key c2 } with hw1
  have hfind1 : afind w1.chains key = some c2 := by
    rw [hw1]
    exact afind_aset_self ..
  have hswap : swapWithParent w1 key = (none, w1) := by
    refine swap_noop w1 key c2 hfind1 ?_
    rcases hnoswap with hnone | ⟨pid, par, hpid, hpk, hparf, hle⟩
    · exact Or.inl hnone
    · refine Or.inr ⟨pid, par, hpid, ?_, ?_⟩
      · rw [hw1]
        simp only []
        rw [afind_aset, if_neg (fun hk => hpk hk.symm)]
        exact hparf
      · have hck : c2.checkpoint = c.checkpoint := rfl
        have hsz : c2.size = c.size + 1 := rfl
        rw [hck, hsz]
        push_cast
        omega
  rw [hsave, hswap]
  refine ⟨rfl, ?_, ?_⟩
  · rw [readHeader, hfind1]
    simp only []
    rw [if_neg (fun hcon => hpar hcon)]
    rw [if_neg (by omega), if_neg (show ¬(hd.blockHeight < (c2.checkpoint : Int)) by
      have hck : c2.checkpoint = c.checkpoint := rfl
      rw [hck]
      omega)]
    rw [if_neg (show ¬(heightOfRec c2 < hd.blockHeight) by
      have : heightOfRec c2 = (c.checkpoint : Int) + c.size := by
        rw [heightOfRec]
        push_cast
        omega
      rw [this]
      omega)]
    have hfind2 : afind w1.files (pathOf c2) = some (f ++ serializeHeader hd) := by
      rw [hw1]
      exact afind_aset_self ..
    rw [hfind2]
    simp only []
    have hslice : slice80 (f ++ serializeHeader hd)
        ((hd.blockHeight - (c2.checkpoint : Int)).toNat) = serializeHeader hd := by
      have hck : c2.checkpoint = c.checkpoint := rfl
      rw [hck, hdelta]
      exact slice80_append f _ c.size hflen hdl
    rw [hslice]
    rw [if_neg (by omega), if_neg hnz]
    rw [serialize_deserialize hd hd.blockHeight hwf, header_eta]
    rfl
  · rw [heightOf, hfind1]
    show some (heightOfRec c2) = some (heightOfRec c + 1)
    congr 1
    rw [heightOfRec, heightOfRec]
    have hck : c2.checkpoint = c.checkpoint := rfl
    have hsz : c2.size = c.size + 1 := rfl
    rw [hck, hsz]
    push_cast
    omega

set_option maxRecDepth 1000000 in
/-- C8 witness: the theorem applied to a concrete main chain of 5 headers
and the all-ones header at height 5. -/
theorem claim_C8_witness :
    (saveHeader wWit 0 (cexHdr 5)).1 = none
    ∧ readHeader (saveHeader wWit 0 (cexHdr 5)).2 (1 + 1) 0 (cexHdr 5).blockHeight
        = .ok (some (cexHdr 5))
    ∧ heightOf (saveHeader wWit 0 (cexHdr 5)).2 0 = some (heightOfRec wWitMain + 1) :=
  claim_C8 wWit 1 0 wWitMain (cexHdr 5) (List.replicate 400 1) (by decide) (by decide)
    (by decide) (by decide) (by decide) (by decide) (by decide) (Or.inl (by decide))

set_option maxRecDepth 1000000 in
/-- C8 counterexample to the claim as stated: saving the all-zero header
succeeds and grows the height, but `read_header` then returns none (the
80 zero bytes are the absent-header sentinel), not a header equal to the
one saved. -/
theorem claim_C8_counterexample :
    (saveHeader w9 0 zeroHdr).1 = none
    ∧ heightOf (saveHeader w9 0 zeroHdr).2 0 = some 0
    ∧ readHeader (saveHeader w9 0 zeroHdr).2 1 0 zeroHdr.blockHeight = .ok none :=
  ⟨by decide, by decide, by decide⟩

/-- Under the registry invariants (parent present, both files present,
parent checkpoint at or below the chain and parent reaching the fork
point), `swap_with_parent` never raises. -/
lemma swap_fst_none (w1 : World) (key : Nat) (c2 : ChainRec)
    (hc2 : afind w1.chains key = some c2)
    (hfile2 : (afind w1.files (pathOf c2)).isSome)
    (hpar2 : ∀ pid, c2.parentId = some pid → pid ≠ key →
        ∃ par, afind w1.chains pid = some par
          ∧ (afind w1.files (pathOf par)).isSome
          ∧ par.checkpoint ≤ c2.checkpoint
          ∧ (c2.checkpoint : Int) ≤ (par.checkpoint : Int) + par.size) :
    (swapWithParent w1 key).1 = none := by
  rw [swapWithParent, hc2]
  simp only []
  cases hpid : c2.parentId with
  | none => rfl
  | some pid =>
    simp only []
    by_cases hpk : pid = key
    · subst hpk
      rw [hc2]
      simp only []
      rw [if_pos (show (c2.size : Int) ≤ heightOfRec c2 - c2.checkpoint + 1 by
        simp only [heightOfRec]
        omega)]
    · obtain ⟨par, hparf, hparfile, hck1, hck2⟩ := hpar2 pid hpid hpk
      rw [hparf]
      simp only []
      by_cases hle : (c2.size : Int) ≤ heightOfRec par - c2.checkpoint + 1
      · rw [if_pos hle]
      · rw [if_neg hle]
        obtain ⟨myf, hmyf⟩ := Option.isSome_iff_exists.mp hfile2
        rw [hmyf]
        simp only []
        obtain ⟨parf, hparfile2⟩ := Option.isSome_iff_exists.mp hparfile
        rw [hparfile2]
        simp only []
        rw [if_neg (show ¬(((c2.checkpoint : Int) - par.checkpoint) * 80 < 0) by
          have : (par.checkpoint : Int) ≤ c2.checkpoint := by exact_mod_cast hck1
          omega)]
        rw [if_neg (show ¬(heightOfRec par - c2.checkpoint + 1 < 0) by
          simp only [heightOfRec]
          omega)]
        rw [writeOp, hc2]
        simp only []
        rw [hmyf]
        simp only []
        rw [writeOp]
        rw [afind_aset, if_neg (fun h => hpk h.symm), hparf]
        simp only []
        rw [afind_aset]
        by_cases hpp : pathOf c2 = pathOf par
        · rw [if_pos hpp]
          simp only []
          rw [afind_aset, if_pos rfl]
        · rw [if_neg hpp, hparfile2]
          simp only []
          rw [afind_aset, if_pos rfl]

/-- The path does not depend on the size field. -/
lemma pathOf_set_size (c : ChainRec) (n : Nat) :
    pathOf { checkpoint := c.checkpoint, parentId := c.parentId, size := n } = pathOf c := rfl

/-- Under the same invariants, `save_chunk` never raises. -/
lemma saveChunk_ok (p : Params) (w : World) (key idx : Nat) (data : List Nat)
    (c : ChainRec)
    (hc : afind w.chains key = some c)
    (hfile : (afind w.files (pathOf c)).isSome)
    (hpar : ∀ pid, c.parentId = some pid →
        ∃ par, afind w.chains pid = some par
          ∧ (afind w.files (pathOf par)).isSome
          ∧ par.checkpoint ≤ c.checkpoint
          ∧ (c.checkpoint : Int) ≤ (par.checkpoint : Int) + par.size) :
    (saveChunk p w key idx data).1 = none := by
  obtain ⟨f, hf⟩ := Option.isSome_iff_exists.mp hfile
  rw [saveChunk, hc]
  simp only []
  rw [writeOp, hc]
  simp only []
  rw [hf]
  simp only []
  apply swap_fst_none
  · exact afind_aset_self ..
  · show (afind (aset w.files (pathOf c) _) (pathOf c)).isSome = true
    rw [afind_aset_self]
    rfl
  · intro pid hpid hpk
    dsimp only at hpid ⊢
    obtain ⟨par, hparf, hparfile, hck1, hck2⟩ := hpar pid hpid
    refine ⟨par, ?_, ?_, hck1, hck2⟩
    · rw [afind_aset, if_neg (fun h => hpk h.symm)]
      exact hparf
    · rw [afind_aset]
      by_cases hpp : pathOf c = pathOf par
      · rw [if_pos hpp]
        rfl
      · rw [if_neg hpp]
        exact hparfile

/-- C3: under the registry invariants of the data model (the chain is
registered, its file exists, and a parent, when referenced, is registered
with its file present and covers the fork point), whenever
`connect_chunk` returns false the whole world — in particular `height()`
and the headers-file bytes — is exactly what it was before the call:
decode and verification errors occur before any write, and under the
invariants `save_chunk` cannot raise after writing. -/
theorem claim_C3 (p : Params) (w : World) (fuel key idx : Nat) (hexdata : List Char)
    (c : ChainRec)
    (hc : afind w.chains key = some c)
    (hfile : (afind w.files (pathOf c)).isSome)
    (hpar : ∀ pid, c.parentId = some pid →
        ∃ par, afind w.chains pid = some par
          ∧ (afind w.files (pathOf par)).isSome
          ∧ par.checkpoint ≤ c.checkpoint
          ∧ (c.checkpoint : Int) ≤ (par.checkpoint : Int) + par.size) :
    (connectChunk p w fuel key idx hexdata).1 = false →
    (connectChunk p w fuel key idx hexdata).2 = w
      ∧ heightOf (connectChunk p w fuel key idx hexdata).2 key = heightOf w key
      ∧ (connectChunk p w fuel key idx hexdata).2.files = w.files := by
  intro hfalse
  have hw : (connectChunk p w fuel key idx hexdata).2 = w := by
    rw [connectChunk] at hfalse ⊢
    cases hb : bfh hexdata with
    | error e => rfl
    | ok data =>
      rw [hb] at hfalse
      simp only [] at hfalse ⊢
      cases hv : verifyChunk p w fuel key idx data with
      | error e => rfl
      | ok u =>
        cases u
        rw [hv] at hfalse
        simp only [] at hfalse ⊢
        have hs := saveChunk_ok p w key idx data c hc hfile hpar
        rcases hsc : saveChunk p w key idx data with ⟨e, w1⟩
        rw [hsc] at hs hfalse
        cases e with
        | none => simp at hfalse
        | some e2 => simp at hs
  exact ⟨hw, by rw [hw], by rw [hw]⟩

/-- C3 witness: a failing `connect_chunk` (odd-length hex input) leaves a
concrete world untouched. -/
theorem claim_C3_witness :
    (connectChunk cexP9 w9 1 0 0 (['x'] : List Char)).1 = false
    ∧ (connectChunk cexP9 w9 1 0 0 (['x'] : List Char)).2 = w9
    ∧ heightOf (connectChunk cexP9 w9 1 0 0 (['x'] : List Char)).2 0 = heightOf w9 0
    ∧ (connectChunk cexP9 w9 1 0 0 (['x'] : List Char)).2.files = w9.files := by
  have happ := claim_C3 cexP9 w9 1 0 0 (['x'] : List Char) ⟨0, none, 0⟩ (by decide)
    (by decide) (fun pid h => by cases h)
  have hfalse : (connectChunk cexP9 w9 1 0 0 (['x'] : List Char)).1 = false := by decide
  exact ⟨hfalse, happ hfalse⟩
